import Mathlib

/-!
Verification of the data-cleaning core (`dataCleaner.js`) of the
excel-data-cleaner add-in.  The grid model, the six stage functions and the
orchestrator `cleanData` are shallowly embedded below; cells are the tagged
variant {Text, Number, Boolean, Empty} of the untyped JavaScript union
(null and undefined both map to `empty`).  `serializeRow` models
`JSON.stringify(row)`, the canonical serialization used for duplicate
detection.
-/

namespace DataCleaner

/-! ### Character-level primitives (JavaScript string operations, ASCII case) -/

/-- ASCII lower-casing of a character, as `String.prototype.toLowerCase`
acts on ASCII letters. -/
def jsToLower (c : Char) : Char :=
  if 65 ≤ c.toNat ∧ c.toNat ≤ 90 then Char.ofNat (c.toNat + 32) else c

/-- ASCII upper-casing of a character, as `String.prototype.toUpperCase`
acts on ASCII letters. -/
def jsToUpper (c : Char) : Char :=
  if 97 ≤ c.toNat ∧ c.toNat ≤ 122 then Char.ofNat (c.toNat - 32) else c

/-- The WhiteSpace / LineTerminator set removed by `String.prototype.trim`. -/
def isJsWS (c : Char) : Bool :=
  decide (c.toNat = 0x9 ∨ c.toNat = 0xA ∨ c.toNat = 0xB ∨ c.toNat = 0xC ∨
    c.toNat = 0xD ∨ c.toNat = 0x20 ∨ c.toNat = 0xA0 ∨ c.toNat = 0x1680 ∨
    (0x2000 ≤ c.toNat ∧ c.toNat ≤ 0x200A) ∨ c.toNat = 0x2028 ∨
    c.toNat = 0x2029 ∨ c.toNat = 0x202F ∨ c.toNat = 0x205F ∨
    c.toNat = 0x3000 ∨ c.toNat = 0xFEFF)

/-- The word-character class of the regular expression `\w`:
`[A-Za-z0-9_]`. -/
def wordChar (c : Char) : Bool :=
  decide ((48 ≤ c.toNat ∧ c.toNat ≤ 57) ∨ (65 ≤ c.toNat ∧ c.toNat ≤ 90) ∨
    (97 ≤ c.toNat ∧ c.toNat ≤ 122) ∨ c.toNat = 95)

/-- `String.prototype.trim` on the character list: drop JS whitespace from
both ends. -/
def trimChars (l : List Char) : List Char :=
  ((l.dropWhile isJsWS).reverse.dropWhile isJsWS).reverse

/-- `String.prototype.trim`. -/
def trimStr (s : String) : String := ⟨trimChars s.data⟩

/-- One pass of `.replace(/\b\w/g, (char) => char.toUpperCase())`: the
boolean argument records whether the previous character was a word
character (no `\b` boundary before the current one in that case). -/
def titleAux : Bool → List Char → List Char
  | _, [] => []
  | prevW, c :: cs =>
    (if wordChar c && !prevW then jsToUpper c else c) :: titleAux (wordChar c) cs

/-- `toTitleCase` from dataCleaner.js: guard on falsy input (the empty
string), then lower-case everything and upper-case each character matched
by `/\b\w/g`. -/
def toTitleCase (s : String) : String :=
  if s = "" then s else ⟨titleAux false (s.data.map jsToLower)⟩

/-! ### The data model -/

/-- A tabular cell: the untyped JavaScript union string/number/boolean/null
(undefined and null both count as the Empty marker). -/
inductive Cell where
  | text : String → Cell
  | num : Int → Cell
  | bool : Bool → Cell
  | empty : Cell
deriving DecidableEq, Repr

abbrev Row := List Cell
abbrev Grid := List Row

/-- The fixed sentinel placeholder written into empty cells. -/
def EMPTY_CELL_REPLACEMENT : String := "N/A"

/-! ### JSON serialization of a row (`JSON.stringify(row)`) -/

/-- JSON string escaping of one character as performed by
`JSON.stringify`. -/
def escapeChar (c : Char) : List Char :=
  if c = '"' then ['\\', '"']
  else if c = '\\' then ['\\', '\\']
  else if c = '\x08' then ['\\', 'b']
  else if c = '\x09' then ['\\', 't']
  else if c = '\x0a' then ['\\', 'n']
  else if c = '\x0c' then ['\\', 'f']
  else if c = '\x0d' then ['\\', 'r']
  else if c.toNat < 32 then
    ['\\', 'u', '0', '0', Nat.digitChar (c.toNat / 16), Nat.digitChar (c.toNat % 16)]
  else [c]

/-- JSON escaping of a whole character list. -/
def escList : List Char → List Char
  | [] => []
  | c :: cs => escapeChar c ++ escList cs

/-- Decimal digits of a natural number, most significant first, with a
structural fuel as in core's `Nat.toDigitsCore`. -/
def natDigitsAux : Nat → Nat → List Char → List Char
  | 0, _, acc => acc
  | fuel + 1, n, acc =>
    let d := Nat.digitChar (n % 10)
    if n / 10 = 0 then d :: acc else natDigitsAux fuel (n / 10) (d :: acc)

/-- Decimal notation of a natural number (`JSON.stringify` on a
non-negative integer value). -/
def natRepr (n : Nat) : String := ⟨natDigitsAux (n + 1) n []⟩

/-- Decimal notation of an integer (`JSON.stringify` on an integral
number). -/
def intRepr : Int → String
  | .ofNat m => natRepr m
  | .negSucc m => ⟨'-' :: (natRepr (m + 1)).data⟩

/-- `JSON.stringify` of a single cell value: quoted/escaped text, decimal
numbers, `true`/`false`, and `null` for the Empty marker (undefined also
serializes as `null` inside an array). -/
def serializeCell : Cell → String
  | .text s => ⟨'"' :: (escList s.data ++ ['"'])⟩
  | .num n => intRepr n
  | .bool b => if b then "true" else "false"
  | .empty => "null"

/-- The comma-separated item list of `JSON.stringify(row)`. -/
def rowItemsChars : Row → List Char
  | [] => []
  | [c] => (serializeCell c).data
  | c :: cs => (serializeCell c).data ++ ',' :: rowItemsChars cs

/-- `JSON.stringify(row)`: the canonical row serialization used by
`removeDuplicateRows`. -/
def serializeRow (row : Row) : String := ⟨'[' :: (rowItemsChars row ++ [']'])⟩

/-! ### A decoder for the row serialization

The decoder below inverts `serializeRow`; it exists only to prove that the
canonical serialization is injective (serialize-then-compare coincides with
structural equality of rows). -/

/-- Value of a (lower-case) hexadecimal digit character. -/
def hexVal (c : Char) : Nat :=
  if 97 ≤ c.toNat then c.toNat - 87 else c.toNat - 48

/-- Decode one escape sequence body (the part after the backslash). -/
def unescHead (l : List Char) : Option (Char × List Char) :=
  match l with
  | [] => none
  | c :: t =>
    if c = '"' then some ('"', t)
    else if c = '\\' then some ('\\', t)
    else if c = 'b' then some ('\x08', t)
    else if c = 't' then some ('\x09', t)
    else if c = 'n' then some ('\x0a', t)
    else if c = 'f' then some ('\x0c', t)
    else if c = 'r' then some ('\x0d', t)
    else if c = 'u' then
      match t with
      | h1 :: h2 :: h3 :: h4 :: t2 =>
        some (Char.ofNat (hexVal h1 * 4096 + hexVal h2 * 256 + hexVal h3 * 16 + hexVal h4), t2)
      | _ => none
    else none

/-- Read an escaped string body up to its closing quote (fueled). -/
def readStrF : Nat → List Char → Option (List Char × List Char)
  | 0, _ => none
  | fuel + 1, l =>
    match l with
    | [] => none
    | c :: t =>
      if c = '"' then some ([], t)
      else if c = '\\' then
        match unescHead t with
        | some (d, t2) =>
          match readStrF fuel t2 with
          | some (s, t3) => some (d :: s, t3)
          | none => none
        | none => none
      else
        match readStrF fuel t with
        | some (s, t2) => some (c :: s, t2)
        | none => none

/-- Decimal digit test on the character code. -/
def isDigitCh (c : Char) : Bool := decide (48 ≤ c.toNat ∧ c.toNat ≤ 57)

/-- Numeric value of a decimal digit character. -/
def digitVal (c : Char) : Nat := c.toNat - 48

/-- Value of a big-endian list of decimal digit characters. -/
def digitsToNat (l : List Char) : Nat :=
  l.foldl (fun a c => a * 10 + digitVal c) 0

/-- Read a maximal run of decimal digits. -/
def readNum (l : List Char) : Option (Nat × List Char) :=
  let ds := l.takeWhile isDigitCh
  if ds.isEmpty then none
  else some (digitsToNat ds, l.dropWhile isDigitCh)

/-- Read one serialized cell from the front of the character list. -/
def readCell (l : List Char) : Option (Cell × List Char) :=
  match l with
  | [] => none
  | c :: t =>
    if c = 'n' then
      match t with
      | 'u' :: 'l' :: 'l' :: t2 => some (.empty, t2)
      | _ => none
    else if c = 't' then
      match t with
      | 'r' :: 'u' :: 'e' :: t2 => some (.bool true, t2)
      | _ => none
    else if c = 'f' then
      match t with
      | 'a' :: 'l' :: 's' :: 'e' :: t2 => some (.bool false, t2)
      | _ => none
    else if c = '"' then
      match readStrF (t.length + 1) t with
      | some (s, t2) => some (.text ⟨s⟩, t2)
      | none => none
    else if c = '-' then
      match readNum t with
      | some (m, t2) => some (.num (-(m : Int)), t2)
      | none => none
    else
      match readNum (c :: t) with
      | some (m, t2) => some (.num ((m : Int)), t2)
      | none => none

/-- Parse the comma-separated cell items up to the closing bracket
(fueled). -/
def parseItems : Nat → List Char → Option Row
  | 0, _ => none
  | fuel + 1, l =>
    match readCell l with
    | some (c, rest) =>
      match rest with
      | [']'] => some [c]
      | ',' :: rest2 =>
        match parseItems fuel rest2 with
        | some cs => some (c :: cs)
        | none => none
      | _ => none
    | none => none

/-- Parse a serialized row. -/
def parseRow (l : List Char) : Option Row :=
  match l with
  | '[' :: rest => if rest = [']'] then some [] else parseItems rest.length rest
  | _ => none

/-- Head of the remainder is not a decimal digit (so a digit run read
greedily stops exactly at the remainder). -/
def noDigitHead (l : List Char) : Bool :=
  match l with
  | [] => true
  | c :: _ => !isDigitCh c

/-! ### The cleaning stages (dataCleaner.js) -/

/-- `trimWhitespace`: trim a string cell, pass all other kinds through. -/
def trimWhitespace (cell : Cell) : Cell :=
  match cell with
  | .text s => .text (trimStr s)
  | c => c

/-- `trimAllWhitespace`: trim every cell of the grid. -/
def trimAllWhitespace (data : Grid) : Grid :=
  data.map (fun row => row.map trimWhitespace)

/-- The per-cell lambda of `normalizeCasing`: title-case non-empty string
cells, pass everything else through. -/
def normalizeCell (cell : Cell) : Cell :=
  match cell with
  | .text s => if 0 < s.length then .text (toTitleCase s) else .text s
  | c => c

/-- `normalizeCasing`: title-case every non-empty string cell. -/
def normalizeCasing (data : Grid) : Grid :=
  data.map (fun row => row.map normalizeCell)

/-- The loop body of `removeDuplicateRows`, with the `seen` set of row
serializations made explicit. -/
def removeDuplicateRowsAux (seen : List String) : Grid → Grid
  | [] => []
  | row :: rows =>
    let rowString := serializeRow row
    if rowString ∈ seen then removeDuplicateRowsAux seen rows
    else row :: removeDuplicateRowsAux (rowString :: seen) rows

/-- `removeDuplicateRows`: drop every row whose `JSON.stringify` was seen
before. -/
def removeDuplicateRows (data : Grid) : Grid := removeDuplicateRowsAux [] data

/-- The per-cell emptiness test inside `isEmptyRow`: the Empty marker, or a
string whose trimmed content has zero length. -/
def isEmptyCell (cell : Cell) : Bool :=
  match cell with
  | .empty => true
  | .text s => decide ((trimStr s).length = 0)
  | _ => false

/-- `isEmptyRow`: every cell of the row is empty. -/
def isEmptyRow (row : Row) : Bool := row.all isEmptyCell

/-- `removeEmptyRows`: keep the rows that are not fully empty. -/
def removeEmptyRows (data : Grid) : Grid :=
  data.filter (fun row => !isEmptyRow row)

/-- The per-cell lambda of `replaceEmptyCells`. -/
def replaceCell (cell : Cell) : Cell :=
  match cell with
  | .empty => .text EMPTY_CELL_REPLACEMENT
  | .text s =>
    if (trimStr s).length = 0 then .text EMPTY_CELL_REPLACEMENT else .text s
  | c => c

/-- `replaceEmptyCells`: substitute the placeholder for every empty cell. -/
def replaceEmptyCells (data : Grid) : Grid :=
  data.map (fun row => row.map replaceCell)

/-- `detectHeaderRow`: index of the first non-empty row, 0 if none. -/
def detectHeaderRow (data : Grid) : Nat :=
  match data.findIdx? (fun row => !isEmptyRow row) with
  | some i => i
  | none => 0

/-- The cleaning result record returned by `cleanData`. -/
structure CleaningResult where
  cleanedData : Grid
  headerRowIndex : Nat
  originalRowCount : Nat
  cleanedRowCount : Nat
deriving DecidableEq, Repr

/-- `cleanData`: the pipeline orchestrator.  A missing grid (null /
undefined, i.e. `none`) or a grid with zero rows raises; otherwise the six
stages run in source order. -/
def cleanData (data : Option Grid) : Except String CleaningResult :=
  match data with
  | none => .error "No data provided to clean."
  | some d =>
    if d.length = 0 then .error "No data provided to clean."
    else
      let originalRowCount := d.length
      let step1 := trimAllWhitespace d
      let step2 := normalizeCasing step1
      let step3 := removeDuplicateRows step2
      let step4 := removeEmptyRows step3
      let step5 := replaceEmptyCells step4
      let headerRowIndex := detectHeaderRow step5
      let cleanedRowCount := step5.length
      .ok { cleanedData := step5, headerRowIndex := headerRowIndex,
            originalRowCount := originalRowCount,
            cleanedRowCount := cleanedRowCount }

/-- The `\b`-tracking state after processing a character list: whether the
last processed character (if any) was a word character. -/
def stateAfter (b : Bool) (l : List Char) : Bool :=
  l.foldl (fun _ c => wordChar c) b

/-- Whether the character before position `i` is a word character (`b` is
the state carried in from the left of the list). -/
def prevWordAt (b : Bool) (l : List Char) : Nat → Bool
  | 0 => b
  | j + 1 => ((l[j]?).map wordChar).getD false

/-- Steps 1–4 of `cleanData`: the cleaned grid before placeholder
replacement. -/
def stage4 (data : Grid) : Grid :=
  removeEmptyRows (removeDuplicateRows (normalizeCasing (trimAllWhitespace data)))

deriving instance DecidableEq for Except

/-! ### Sanity checks on concrete data (spec scenarios A and B) -/

example :
    cleanData (some [[.text "  alice  ", .text "30"],
                     [.text "Alice", .text "30"],
                     [.text "", .text ""]]) =
      .ok { cleanedData := [[.text "Alice", .text "30"]],
            headerRowIndex := 0, originalRowCount := 3,
            cleanedRowCount := 1 } := by decide

example :
    cleanData (some [[.empty, .empty], [.text "x", .empty]]) =
      .ok { cleanedData := [[.text "X", .text "N/A"]],
            headerRowIndex := 0, originalRowCount := 2,
            cleanedRowCount := 1 } := by decide

example : toTitleCase "3m" = "3m" := by decide

example : toTitleCase (trimStr " a") = "A" ∧ toTitleCase " a" = " A" := by decide

/-! ### Character lemmas -/

theorem toNat_ofNat_lt (n : Nat) (h : n < 55296) : (Char.ofNat n).toNat = n := by
  unfold Char.ofNat
  rw [dif_pos (Or.inl h)]
  rfl

theorem char_eq_of_toNat {c d : Char} (h : c.toNat = d.toNat) : c = d :=
  Char.ext (UInt32.toNat.inj h)

theorem jsToLower_toNat (c : Char) :
    (jsToLower c).toNat =
      if 65 ≤ c.toNat ∧ c.toNat ≤ 90 then c.toNat + 32 else c.toNat := by
  unfold jsToLower
  split
  · next h => exact toNat_ofNat_lt _ (by omega)
  · rfl

theorem jsToUpper_toNat (c : Char) :
    (jsToUpper c).toNat =
      if 97 ≤ c.toNat ∧ c.toNat ≤ 122 then c.toNat - 32 else c.toNat := by
  unfold jsToUpper
  split
  · next h => exact toNat_ofNat_lt _ (by omega)
  · rfl

theorem isJsWS_iff (c : Char) :
    isJsWS c = true ↔
      (c.toNat = 0x9 ∨ c.toNat = 0xA ∨ c.toNat = 0xB ∨ c.toNat = 0xC ∨
       c.toNat = 0xD ∨ c.toNat = 0x20 ∨ c.toNat = 0xA0 ∨ c.toNat = 0x1680 ∨
       (0x2000 ≤ c.toNat ∧ c.toNat ≤ 0x200A) ∨ c.toNat = 0x2028 ∨
       c.toNat = 0x2029 ∨ c.toNat = 0x202F ∨ c.toNat = 0x205F ∨
       c.toNat = 0x3000 ∨ c.toNat = 0xFEFF) := by
  simp [isJsWS]

theorem wordChar_iff (c : Char) :
    wordChar c = true ↔
      ((48 ≤ c.toNat ∧ c.toNat ≤ 57) ∨ (65 ≤ c.toNat ∧ c.toNat ≤ 90) ∨
       (97 ≤ c.toNat ∧ c.toNat ≤ 122) ∨ c.toNat = 95) := by
  simp [wordChar]

theorem isJsWS_not_wordChar {c : Char} (h : isJsWS c = true) :
    wordChar c = false := by
  rw [isJsWS_iff] at h
  rw [Bool.eq_false_iff, Ne, wordChar_iff]
  omega

theorem jsToLower_of_isJsWS {c : Char} (h : isJsWS c = true) : jsToLower c = c := by
  rw [isJsWS_iff] at h
  apply char_eq_of_toNat
  rw [jsToLower_toNat, if_neg (by omega)]

theorem isJsWS_jsToLower (c : Char) : isJsWS (jsToLower c) = isJsWS c := by
  rw [Bool.eq_iff_iff]
  simp only [isJsWS_iff, jsToLower_toNat]
  split_ifs <;> omega

theorem isJsWS_jsToUpper (c : Char) : isJsWS (jsToUpper c) = isJsWS c := by
  rw [Bool.eq_iff_iff]
  simp only [isJsWS_iff, jsToUpper_toNat]
  split_ifs <;> omega

theorem jsToLower_jsToLower (c : Char) :
    jsToLower (jsToLower c) = jsToLower c := by
  apply char_eq_of_toNat
  simp only [jsToLower_toNat]
  split_ifs <;> omega

theorem jsToLower_jsToUpper_jsToLower (c : Char) :
    jsToLower (jsToUpper (jsToLower c)) = jsToLower c := by
  apply char_eq_of_toNat
  simp only [jsToLower_toNat, jsToUpper_toNat]
  split_ifs <;> omega

theorem wordChar_jsToUpper (c : Char) : wordChar (jsToUpper c) = wordChar c := by
  rw [Bool.eq_iff_iff]
  simp only [wordChar_iff, jsToUpper_toNat]
  split_ifs <;> omega

theorem jsToLower_jsToUpper (c : Char) : jsToLower (jsToUpper c) = jsToLower c := by
  apply char_eq_of_toNat
  simp only [jsToLower_toNat, jsToUpper_toNat]
  split_ifs <;> omega

/-! ### Trim lemmas -/

theorem dropWhile_head_false {α : Type} {p : α → Bool} :
    ∀ {l : List α} {x : α} {t : List α}, l.dropWhile p = x :: t → p x = false := by
  intro l
  induction l with
  | nil => intro x t h; simp at h
  | cons c cs ih =>
    intro x t h
    rw [List.dropWhile_cons] at h
    split at h
    · exact ih h
    · next hc =>
      cases h
      simpa using hc

theorem dropWhile_idem {α : Type} (p : α → Bool) (l : List α) :
    (l.dropWhile p).dropWhile p = l.dropWhile p := by
  cases h : l.dropWhile p with
  | nil => rfl
  | cons x t =>
    rw [List.dropWhile_cons, dropWhile_head_false h]
    simp

theorem dropWhile_trimChars (l : List Char) :
    (trimChars l).dropWhile isJsWS = trimChars l := by
  obtain ⟨pre, hpre⟩ := List.dropWhile_suffix (l := (l.dropWhile isJsWS).reverse) isJsWS
  have hA : l.dropWhile isJsWS = trimChars l ++ pre.reverse := by
    have h2 := congrArg List.reverse hpre
    simpa [trimChars] using h2.symm
  cases h : trimChars l with
  | nil => rfl
  | cons x t =>
    have hx : isJsWS x = false := by
      apply dropWhile_head_false (l := l)
      rw [hA, h]
      rfl
    rw [List.dropWhile_cons, hx]
    simp

theorem trimTrailing_trimChars (l : List Char) :
    ((trimChars l).reverse.dropWhile isJsWS).reverse = trimChars l := by
  show (((((l.dropWhile isJsWS).reverse.dropWhile isJsWS).reverse).reverse).dropWhile isJsWS).reverse = _
  rw [List.reverse_reverse, dropWhile_idem]
  rfl

theorem trimChars_trimChars (l : List Char) :
    trimChars (trimChars l) = trimChars l := by
  show (((trimChars l).dropWhile isJsWS).reverse.dropWhile isJsWS).reverse = _
  rw [dropWhile_trimChars]
  exact trimTrailing_trimChars l

theorem trimStr_trimStr (s : String) : trimStr (trimStr s) = trimStr s :=
  congrArg String.mk (trimChars_trimChars s.data)

theorem str_eq_empty_iff (s : String) : s = "" ↔ s.data = [] := by
  constructor
  · intro h; rw [h]
  · intro h; exact String.ext h

/-! ### Title-case lemmas -/

theorem titleAux_append (b : Bool) (l1 l2 : List Char) :
    titleAux b (l1 ++ l2) = titleAux b l1 ++ titleAux (stateAfter b l1) l2 := by
  induction l1 generalizing b with
  | nil => rfl
  | cons c t ih => simp [titleAux, stateAfter, ih (wordChar c), List.foldl_cons]

theorem titleAux_length (b : Bool) (l : List Char) :
    (titleAux b l).length = l.length := by
  induction l generalizing b with
  | nil => rfl
  | cons c t ih => simp [titleAux, ih]

theorem titleAux_all_not_word (b : Bool) {l : List Char}
    (h : ∀ c ∈ l, wordChar c = false) : titleAux b l = l := by
  induction l generalizing b with
  | nil => rfl
  | cons c t ih =>
    have hc : wordChar c = false := h c (by simp)
    simp only [titleAux, hc, Bool.false_and, Bool.false_eq_true, if_false]
    rw [ih false (fun d hd => h d (List.mem_cons_of_mem _ hd))]

theorem map_jsToLower_titleAux (b : Bool) (l : List Char) :
    (titleAux b l).map jsToLower = l.map jsToLower := by
  induction l generalizing b with
  | nil => rfl
  | cons c t ih =>
    simp only [titleAux, List.map_cons, ih]
    congr 1
    split
    · exact jsToLower_jsToUpper c
    · rfl

/-- The character written by `titleAux` for input character `c` has the
same whitespace status as `c`. -/
theorem titleChar_isJsWS (b : Bool) (c : Char) :
    isJsWS (if wordChar c && !b then jsToUpper c else c) = isJsWS c := by
  split
  · exact isJsWS_jsToUpper c
  · rfl

theorem dropWhile_titleAux_lower (l : List Char) :
    (titleAux false (l.map jsToLower)).dropWhile isJsWS
      = titleAux false ((l.dropWhile isJsWS).map jsToLower) := by
  induction l with
  | nil => rfl
  | cons c t ih =>
    by_cases hws : isJsWS c = true
    · have hlc : jsToLower c = c := jsToLower_of_isJsWS hws
      have hwc : wordChar c = false := isJsWS_not_wordChar hws
      simp [titleAux, hlc, hwc, List.dropWhile_cons, hws, ih]
    · have hws' : isJsWS c = false := by simpa using hws
      simp only [List.map_cons, titleAux, List.dropWhile_cons, titleChar_isJsWS,
        isJsWS_jsToLower, hws']
      simp

theorem trailing_titleAux (l : List Char) :
    ((titleAux false (l.map jsToLower)).reverse.dropWhile isJsWS).reverse
      = titleAux false (((l.reverse.dropWhile isJsWS).reverse).map jsToLower) := by
  induction l using List.reverseRecOn with
  | nil => rfl
  | append_singleton l' c ih =>
    have hstep : titleAux false ((l' ++ [c]).map jsToLower)
        = titleAux false (l'.map jsToLower) ++
          [if wordChar (jsToLower c) && !(stateAfter false (l'.map jsToLower))
             then jsToUpper (jsToLower c) else jsToLower c] := by
      rw [List.map_append, titleAux_append]
      rfl
    by_cases hws : isJsWS c = true
    · have hlc : jsToLower c = c := jsToLower_of_isJsWS hws
      have hwc : wordChar c = false := isJsWS_not_wordChar hws
      have hchar : (if wordChar (jsToLower c) && !(stateAfter false (l'.map jsToLower))
            then jsToUpper (jsToLower c) else jsToLower c) = c := by
        rw [hlc, hwc]
        simp
      rw [hstep, hchar]
      simp only [List.reverse_append, List.reverse_cons, List.reverse_nil,
        List.nil_append, List.singleton_append, List.dropWhile_cons, hws, if_true]
      rw [ih]
    · have hws' : isJsWS c = false := by simpa using hws
      have hd : isJsWS (if wordChar (jsToLower c) && !(stateAfter false (l'.map jsToLower))
            then jsToUpper (jsToLower c) else jsToLower c) = false := by
        rw [titleChar_isJsWS, isJsWS_jsToLower]
        exact hws'
      have hX : (((l' ++ [c]).reverse).dropWhile isJsWS).reverse = l' ++ [c] := by
        simp [List.reverse_append, List.dropWhile_cons, hws']
      rw [hstep, hX, hstep]
      simp only [List.reverse_append, List.reverse_cons, List.reverse_nil,
        List.nil_append, List.singleton_append, List.dropWhile_cons, hd]
      simp

theorem trimChars_titleAux (l : List Char) :
    trimChars (titleAux false (l.map jsToLower))
      = titleAux false ((trimChars l).map jsToLower) := by
  show (((titleAux false (l.map jsToLower)).dropWhile isJsWS).reverse.dropWhile
      isJsWS).reverse = _
  rw [dropWhile_titleAux_lower]
  exact trailing_titleAux (l.dropWhile isJsWS)

theorem toTitleCase_data (s : String) (h : s ≠ "") :
    (toTitleCase s).data = titleAux false (s.data.map jsToLower) := by
  unfold toTitleCase
  rw [if_neg h]

theorem toTitleCase_trimStr (s : String) :
    toTitleCase (trimStr s) = trimStr (toTitleCase s) := by
  by_cases h0 : s = ""
  · rw [h0]; rfl
  · by_cases h1 : trimStr s = ""
    · have hdata : trimChars s.data = [] := (str_eq_empty_iff (trimStr s)).mp h1
      rw [h1]
      apply String.ext
      show ([] : List Char) = (trimStr (toTitleCase s)).data
      have h3 : (trimStr (toTitleCase s)).data = trimChars ((toTitleCase s).data) := rfl
      rw [h3, toTitleCase_data s h0, trimChars_titleAux, hdata]
      rfl
    · apply String.ext
      rw [toTitleCase_data _ h1]
      show titleAux false ((trimStr s).data.map jsToLower)
        = (trimStr (toTitleCase s)).data
      have h2 : (trimStr s).data = trimChars s.data := rfl
      have h3 : (trimStr (toTitleCase s)).data = trimChars ((toTitleCase s).data) := rfl
      rw [h2, h3, toTitleCase_data s h0, trimChars_titleAux]

theorem toTitleCase_ne_empty {s : String} (h0 : s ≠ "") : toTitleCase s ≠ "" := by
  intro h
  have hd := congrArg String.data h
  rw [toTitleCase_data s h0] at hd
  have h3 := titleAux_length false (s.data.map jsToLower)
  rw [hd] at h3
  have h4 : s.data.length = 0 := by simpa using h3.symm
  exact h0 (String.ext (List.length_eq_zero.mp h4))

theorem toTitleCase_toTitleCase (s : String) :
    toTitleCase (toTitleCase s) = toTitleCase s := by
  by_cases h0 : s = ""
  · rw [h0]; rfl
  · have hne : toTitleCase s ≠ "" := toTitleCase_ne_empty h0
    apply String.ext
    rw [toTitleCase_data _ hne, toTitleCase_data _ h0,
      map_jsToLower_titleAux, List.map_map]
    have hcomp : jsToLower ∘ jsToLower = jsToLower := funext jsToLower_jsToLower
    rw [hcomp]

/-! ### Round-trip of the serialization decoder -/

theorem hexVal_digitChar : ∀ m, m < 16 → hexVal (Nat.digitChar m) = m := by decide

theorem unescHead_escapeChar (c : Char) :
    (∃ enc, escapeChar c = '\\' :: enc ∧ 1 ≤ enc.length ∧
       ∀ t, unescHead (enc ++ t) = some (c, t)) ∨
    (escapeChar c = [c] ∧ c ≠ '"' ∧ c ≠ '\\') := by
  unfold escapeChar
  split_ifs with h1 h2 h3 h4 h5 h6 h7 h8
  · exact Or.inl ⟨['"'], rfl, by simp, fun t => by simp [unescHead, h1]⟩
  · exact Or.inl ⟨['\\'], rfl, by simp, fun t => by simp [unescHead, h2]⟩
  · exact Or.inl ⟨['b'], rfl, by simp, fun t => by simp [unescHead, h3]⟩
  · exact Or.inl ⟨['t'], rfl, by simp, fun t => by simp [unescHead, h4]⟩
  · exact Or.inl ⟨['n'], rfl, by simp, fun t => by simp [unescHead, h5]⟩
  · exact Or.inl ⟨['f'], rfl, by simp, fun t => by simp [unescHead, h6]⟩
  · exact Or.inl ⟨['r'], rfl, by simp, fun t => by simp [unescHead, h7]⟩
  · refine Or.inl ⟨['u', '0', '0', Nat.digitChar (c.toNat / 16),
      Nat.digitChar (c.toNat % 16)], rfl, by simp, fun t => ?_⟩
    have hval : Char.ofNat (hexVal '0' * 4096 + hexVal '0' * 256 +
        hexVal (Nat.digitChar (c.toNat / 16)) * 16 +
        hexVal (Nat.digitChar (c.toNat % 16))) = c := by
      rw [hexVal_digitChar _ (by omega), hexVal_digitChar _ (by omega)]
      have hv0 : hexVal '0' = 0 := by decide
      rw [hv0]
      have harith : 0 * 4096 + 0 * 256 + c.toNat / 16 * 16 + c.toNat % 16
          = c.toNat := by omega
      rw [harith, Char.ofNat_toNat]
    simp [unescHead, hval]
  · exact Or.inr ⟨rfl, h1, h2⟩

theorem escapeChar_length_pos (c : Char) : 1 ≤ (escapeChar c).length := by
  rcases unescHead_escapeChar c with ⟨enc, he, _, _⟩ | ⟨he, _, _⟩ <;> rw [he] <;> simp

theorem readStrF_escList : ∀ (s : List Char) (t : List Char) (fuel : Nat),
    (escList s).length + 1 ≤ fuel →
    readStrF fuel (escList s ++ '"' :: t) = some (s, t) := by
  intro s
  induction s with
  | nil =>
    intro t fuel hf
    match fuel, hf with
    | f + 1, _ => simp [readStrF, escList]
  | cons c s' ih =>
    intro t fuel hf
    have hlen : (escList (c :: s')).length
        = (escapeChar c).length + (escList s').length := by
      show (escapeChar c ++ escList s').length = _
      simp
    match fuel, hf with
    | f + 1, hf =>
      rcases unescHead_escapeChar c with ⟨enc, he, henc, hdec⟩ | ⟨he, hq, hb⟩
      · show readStrF (f + 1) (escList (c :: s') ++ '"' :: t) = _
        have hl : escList (c :: s') ++ '"' :: t
            = '\\' :: (enc ++ (escList s' ++ '"' :: t)) := by
          show (escapeChar c ++ escList s') ++ '"' :: t = _
          rw [he]
          simp
        rw [hl]
        have hfe : (escList s').length + 1 ≤ f := by
          rw [he] at hlen
          simp at hlen
          omega
        simp only [readStrF, if_neg (by decide : ¬('\\' : Char) = '"'),
          if_pos rfl, hdec (escList s' ++ '"' :: t), ih t f hfe]
        simp
      · show readStrF (f + 1) (escList (c :: s') ++ '"' :: t) = _
        have hl : escList (c :: s') ++ '"' :: t
            = c :: (escList s' ++ '"' :: t) := by
          show (escapeChar c ++ escList s') ++ '"' :: t = _
          rw [he]
          simp
        rw [hl]
        have hfe : (escList s').length + 1 ≤ f := by
          rw [he] at hlen
          simp at hlen
          omega
        simp only [readStrF, if_neg hq, if_neg hb, ih t f hfe]

/-! ### Decimal representation lemmas -/

theorem natDigitsAux_acc : ∀ (fuel n : Nat) (acc : List Char),
    natDigitsAux fuel n acc = natDigitsAux fuel n [] ++ acc := by
  intro fuel
  induction fuel with
  | zero => intro n acc; rfl
  | succ f ih =>
    intro n acc
    by_cases h : n / 10 = 0
    · show (if n / 10 = 0 then _ else _) = (if n / 10 = 0 then _ else _) ++ acc
      rw [if_pos h, if_pos h]
      rfl
    · show (if n / 10 = 0 then _ :: acc else natDigitsAux f (n / 10) (_ :: acc))
        = (if n / 10 = 0 then _ :: ([] : List Char)
            else natDigitsAux f (n / 10) (_ :: [])) ++ acc
      rw [if_neg h, if_neg h]
      rw [ih (n / 10) (Nat.digitChar (n % 10) :: acc),
        ih (n / 10) (Nat.digitChar (n % 10) :: [])]
      simp

theorem natDigitsAux_fuel : ∀ (n f1 f2 : Nat) (acc : List Char),
    n < 10 ^ f1 → n < 10 ^ f2 → 0 < f1 → 0 < f2 →
    natDigitsAux f1 n acc = natDigitsAux f2 n acc := by
  intro n
  induction n using Nat.strong_induction_on with
  | _ n ih =>
    intro f1 f2 acc hb1 hb2 hf1 hf2
    match f1, hf1 with
    | a + 1, _ =>
      match f2, hf2 with
      | b + 1, _ =>
        by_cases h : n / 10 = 0
        · show (if n / 10 = 0 then _ else _) = (if n / 10 = 0 then _ else _)
          rw [if_pos h, if_pos h]
        · have hn10 : 10 ≤ n := by omega
          have ha : 0 < a := by
            by_contra hc
            have : a = 0 := by omega
            rw [this] at hb1
            simp at hb1
            omega
          have hb : 0 < b := by
            by_contra hc
            have : b = 0 := by omega
            rw [this] at hb2
            simp at hb2
            omega
          have hd1 : n / 10 < 10 ^ a := by
            rw [Nat.div_lt_iff_lt_mul (by norm_num : 0 < 10)]
            rw [pow_succ] at hb1
            exact hb1
          have hd2 : n / 10 < 10 ^ b := by
            rw [Nat.div_lt_iff_lt_mul (by norm_num : 0 < 10)]
            rw [pow_succ] at hb2
            exact hb2
          show (if n / 10 = 0 then _ else _) = (if n / 10 = 0 then _ else _)
          rw [if_neg h, if_neg h]
          exact ih (n / 10) (by omega) a b _ hd1 hd2 ha hb

theorem natRepr_lt10 (n : Nat) (h : n < 10) :
    (natRepr n).data = [Nat.digitChar n] := by
  have h0 : n / 10 = 0 := Nat.div_eq_of_lt h
  have h1 : n % 10 = n := Nat.mod_eq_of_lt h
  show (if n / 10 = 0 then _ else _) = _
  rw [if_pos h0, h1]

theorem natRepr_ge10 (n : Nat) (h : 10 ≤ n) :
    (natRepr n).data = (natRepr (n / 10)).data ++ [Nat.digitChar (n % 10)] := by
  have h0 : ¬ n / 10 = 0 := by omega
  have step : natDigitsAux (n + 1) n [] = natDigitsAux n (n / 10) [Nat.digitChar (n % 10)] := by
    show (if n / 10 = 0 then _ else _) = _
    rw [if_neg h0]
  show natDigitsAux (n + 1) n [] = natDigitsAux (n / 10 + 1) (n / 10) [] ++ _
  rw [step, natDigitsAux_acc]
  congr 1
  apply natDigitsAux_fuel
  · exact Nat.lt_of_le_of_lt (Nat.div_le_self n 10) (Nat.lt_pow_self (by norm_num) n)
  · exact Nat.lt_of_lt_of_le (Nat.lt_pow_self (by norm_num) (n / 10))
      (Nat.pow_le_pow_right (by norm_num) (by omega))
  · omega
  · omega

theorem digitChar_isDigit : ∀ m, m < 10 → isDigitCh (Nat.digitChar m) = true := by
  decide

theorem digitVal_digitChar : ∀ m, m < 10 → digitVal (Nat.digitChar m) = m := by
  decide

theorem natRepr_all_digits (n : Nat) :
    ∀ c ∈ (natRepr n).data, isDigitCh c = true := by
  induction n using Nat.strong_induction_on with
  | _ n ih =>
    by_cases h : n < 10
    · rw [natRepr_lt10 n h]
      intro c hc
      simp at hc
      rw [hc]
      exact digitChar_isDigit n h
    · rw [natRepr_ge10 n (by omega)]
      intro c hc
      rcases List.mem_append.mp hc with h1 | h2
      · exact ih (n / 10) (by omega) c h1
      · simp at h2
        rw [h2]
        exact digitChar_isDigit (n % 10) (by omega)

theorem natRepr_ne_nil (n : Nat) : (natRepr n).data ≠ [] := by
  by_cases h : n < 10
  · rw [natRepr_lt10 n h]
    simp
  · rw [natRepr_ge10 n (by omega)]
    simp

theorem digitsToNat_append_digit (a : List Char) (c : Char) :
    digitsToNat (a ++ [c]) = digitsToNat a * 10 + digitVal c := by
  unfold digitsToNat
  rw [List.foldl_append]
  rfl

theorem digitsToNat_natRepr (n : Nat) : digitsToNat (natRepr n).data = n := by
  induction n using Nat.strong_induction_on with
  | _ n ih =>
    by_cases h : n < 10
    · rw [natRepr_lt10 n h]
      show (fun a c => a * 10 + digitVal c) 0 (Nat.digitChar n) = n
      show 0 * 10 + digitVal (Nat.digitChar n) = n
      rw [digitVal_digitChar n h]
      omega
    · rw [natRepr_ge10 n (by omega), digitsToNat_append_digit,
        ih (n / 10) (by omega), digitVal_digitChar (n % 10) (by omega)]
      omega

theorem takeWhile_append_all {α : Type} (p : α → Bool) :
    ∀ (a b : List α), (∀ x ∈ a, p x = true) →
      (a ++ b).takeWhile p = a ++ b.takeWhile p ∧
      (a ++ b).dropWhile p = b.dropWhile p := by
  intro a
  induction a with
  | nil => simp
  | cons x t ih =>
    intro b h
    have hx : p x = true := h x (by simp)
    have ht := ih b (fun y hy => h y (by simp [hy]))
    simp [List.takeWhile_cons, List.dropWhile_cons, hx, ht.1, ht.2]

theorem readNum_natRepr (n : Nat) (t : List Char) (ht : noDigitHead t = true) :
    readNum ((natRepr n).data ++ t) = some (n, t) := by
  have hall := natRepr_all_digits n
  have hsplit := takeWhile_append_all isDigitCh (natRepr n).data t hall
  have htk : t.takeWhile isDigitCh = [] ∧ t.dropWhile isDigitCh = t := by
    cases t with
    | nil => simp
    | cons c rest =>
      have hc : isDigitCh c = false := by
        simpa [noDigitHead] using ht
      simp [List.takeWhile_cons, List.dropWhile_cons, hc]
  have hne : ((natRepr n).data ++ t).takeWhile isDigitCh = (natRepr n).data := by
    rw [hsplit.1, htk.1, List.append_nil]
  simp only [readNum, hne, hsplit.2, htk.2]
  cases hr : (natRepr n).data with
  | nil => exact absurd hr (natRepr_ne_nil n)
  | cons d ds =>
    rw [← hr]
    have : ((natRepr n).data).isEmpty = false := by
      rw [hr]
      rfl
    rw [this]
    simp [digitsToNat_natRepr n]

/-! ### Round-trip for cells and rows; injectivity of the serialization -/

theorem digit_not_markers {d : Char} (h : isDigitCh d = true) :
    d ≠ 'n' ∧ d ≠ 't' ∧ d ≠ 'f' ∧ d ≠ '"' ∧ d ≠ '-' := by
  refine ⟨?_, ?_, ?_, ?_, ?_⟩ <;> intro he <;> rw [he] at h <;>
    exact absurd h (by decide)

theorem readCell_serializeCell (c : Cell) (t : List Char)
    (ht : noDigitHead t = true) :
    readCell ((serializeCell c).data ++ t) = some (c, t) := by
  cases c with
  | empty =>
    show readCell ('n' :: 'u' :: 'l' :: 'l' :: t) = _
    simp [readCell]
  | bool b =>
    cases b
    · show readCell ('f' :: 'a' :: 'l' :: 's' :: 'e' :: t) = _
      simp [readCell]
    · show readCell ('t' :: 'r' :: 'u' :: 'e' :: t) = _
      simp [readCell]
  | text s =>
    show readCell ('"' :: ((escList s.data ++ ['"']) ++ t)) = _
    have hl : (escList s.data ++ ['"']) ++ t = escList s.data ++ '"' :: t := by
      simp
    rw [hl]
    simp only [readCell, if_neg (by decide : ¬('"' : Char) = 'n'),
      if_neg (by decide : ¬('"' : Char) = 't'),
      if_neg (by decide : ¬('"' : Char) = 'f'), if_pos rfl]
    rw [readStrF_escList s.data t _ (by simp)]
    simp
  | num i =>
    cases i with
    | ofNat m =>
      show readCell ((natRepr m).data ++ t) = some (.num (Int.ofNat m), t)
      cases hr : (natRepr m).data with
      | nil => exact absurd hr (natRepr_ne_nil m)
      | cons d ds =>
        have hd : isDigitCh d = true := natRepr_all_digits m d (by rw [hr]; simp)
        have hnot := digit_not_markers hd
        show readCell (d :: (ds ++ t)) = _
        simp only [readCell, if_neg hnot.1, if_neg hnot.2.1, if_neg hnot.2.2.1,
          if_neg hnot.2.2.2.1, if_neg hnot.2.2.2.2]
        have hback : d :: (ds ++ t) = (natRepr m).data ++ t := by
          rw [hr]
          rfl
        rw [hback, readNum_natRepr m t ht]
        simp
    | negSucc m =>
      show readCell ('-' :: ((natRepr (m + 1)).data ++ t))
        = some (.num (Int.negSucc m), t)
      simp only [readCell, if_neg (by decide : ¬('-' : Char) = 'n'),
        if_neg (by decide : ¬('-' : Char) = 't'),
        if_neg (by decide : ¬('-' : Char) = 'f'),
        if_neg (by decide : ¬('-' : Char) = '"'), if_pos rfl]
      rw [readNum_natRepr (m + 1) t ht]
      have h2 : (-((m + 1 : Nat) : Int)) = Int.negSucc m := by
        rw [Int.negSucc_eq]
        push_cast
        ring
      simp [h2]
      omega

theorem rowItemsChars_cons2 (c c2 : Cell) (cs : Row) :
    rowItemsChars (c :: c2 :: cs)
      = (serializeCell c).data ++ ',' :: rowItemsChars (c2 :: cs) := rfl

theorem parseItems_rowItems : ∀ (r : Row), r ≠ [] → ∀ (fuel : Nat),
    r.length ≤ fuel → parseItems fuel (rowItemsChars r ++ [']']) = some r := by
  intro r
  induction r with
  | nil => intro h; exact absurd rfl h
  | cons c r' ih =>
    intro _ fuel hf
    match fuel, hf with
    | f + 1, hf =>
      cases r' with
      | nil =>
        show parseItems (f + 1) ((serializeCell c).data ++ [']']) = some [c]
        simp only [parseItems, readCell_serializeCell c [']'] (by decide)]
      | cons c2 cs =>
        show parseItems (f + 1)
          (((serializeCell c).data ++ ',' :: rowItemsChars (c2 :: cs)) ++ [']'])
          = some (c :: c2 :: cs)
        have hl : ((serializeCell c).data ++ ',' :: rowItemsChars (c2 :: cs)) ++ [']']
            = (serializeCell c).data ++ ',' :: (rowItemsChars (c2 :: cs) ++ [']']) := by
          simp
        rw [hl]
        have hnd : noDigitHead (',' :: (rowItemsChars (c2 :: cs) ++ [']'])) = true := by
          show (!isDigitCh ',') = true
          decide
        simp only [parseItems, readCell_serializeCell c _ hnd]
        rw [ih (by simp) f (by simp at hf ⊢; omega)]

theorem serializeCell_ne_nil (c : Cell) : (serializeCell c).data ≠ [] := by
  cases c with
  | text s => simp [serializeCell]
  | num i =>
    cases i with
    | ofNat m => exact natRepr_ne_nil m
    | negSucc m => simp [serializeCell, intRepr]
  | bool b => cases b <;> simp [serializeCell]
  | empty => simp [serializeCell]

theorem rowItemsChars_length_ge (r : Row) :
    r.length ≤ (rowItemsChars r).length + 1 := by
  induction r with
  | nil => simp
  | cons c r' ih =>
    cases r' with
    | nil => simp [rowItemsChars]
    | cons c2 cs =>
      rw [rowItemsChars_cons2]
      simp only [List.length_append, List.length_cons]
      simp at ih ⊢
      omega

theorem rowItemsChars_ne_nil (r : Row) (h : r ≠ []) : rowItemsChars r ≠ [] := by
  cases r with
  | nil => exact absurd rfl h
  | cons c r' =>
    cases r' with
    | nil => exact serializeCell_ne_nil c
    | cons c2 cs =>
      rw [rowItemsChars_cons2]
      intro hx
      rcases List.append_eq_nil.mp hx with ⟨_, h2⟩
      simp at h2

theorem parseRow_serializeRow (r : Row) : parseRow (serializeRow r).data = some r := by
  cases r with
  | nil => rfl
  | cons c r' =>
    show parseRow ('[' :: (rowItemsChars (c :: r') ++ [']'])) = some (c :: r')
    have hne : rowItemsChars (c :: r') ≠ [] := rowItemsChars_ne_nil _ (by simp)
    have hrest : ¬ (rowItemsChars (c :: r') ++ [']']) = [']'] := by
      intro hx
      have hlen := congrArg List.length hx
      simp at hlen
      exact hne hlen
    simp only [parseRow, if_neg hrest]
    apply parseItems_rowItems _ (by simp)
    have := rowItemsChars_length_ge (c :: r')
    simp only [List.length_append, List.length_cons]
    simpa using this

theorem serializeRow_inj {r1 r2 : Row}
    (h : serializeRow r1 = serializeRow r2) : r1 = r2 := by
  have h1 := parseRow_serializeRow r1
  rw [h, parseRow_serializeRow r2] at h1
  exact (Option.some.inj h1).symm

theorem serializeCell_inj {c1 c2 : Cell}
    (h : serializeCell c1 = serializeCell c2) : c1 = c2 := by
  have hrow : serializeRow [c1] = serializeRow [c2] := by
    apply congrArg String.mk
    show '[' :: ((serializeCell c1).data ++ [']'])
      = '[' :: ((serializeCell c2).data ++ [']'])
    rw [congrArg String.data h]
  have := serializeRow_inj hrow
  injection this

/-! ### Duplicate-elimination lemmas -/

theorem removeDuplicateRowsAux_cons (seen : List String) (r : Row) (rs : Grid) :
    removeDuplicateRowsAux seen (r :: rs)
      = if serializeRow r ∈ seen then removeDuplicateRowsAux seen rs
        else r :: removeDuplicateRowsAux (serializeRow r :: seen) rs := rfl

theorem removeDuplicateRowsAux_congr : ∀ (l : Grid) (s1 s2 : List String),
    (∀ x, x ∈ s1 ↔ x ∈ s2) →
    removeDuplicateRowsAux s1 l = removeDuplicateRowsAux s2 l := by
  intro l
  induction l with
  | nil => intro s1 s2 h; rfl
  | cons r rs ih =>
    intro s1 s2 h
    rw [removeDuplicateRowsAux_cons, removeDuplicateRowsAux_cons]
    by_cases hm : serializeRow r ∈ s1
    · rw [if_pos hm, if_pos ((h _).mp hm)]
      exact ih s1 s2 h
    · rw [if_neg hm, if_neg (fun hx => hm ((h _).mpr hx))]
      exact congrArg (r :: ·) (ih _ _ (by intro x; simp [List.mem_cons, h x]))

theorem removeDuplicateRowsAux_filter : ∀ (l : Grid) (seen : List String) (s : String),
    removeDuplicateRowsAux (s :: seen) l
      = removeDuplicateRowsAux seen (l.filter (fun r => !(serializeRow r == s))) := by
  intro l
  induction l with
  | nil => intro seen s; rfl
  | cons r rs ih =>
    intro seen s
    by_cases hs : serializeRow r = s
    · have h1 : serializeRow r ∈ s :: seen := by rw [hs]; exact List.mem_cons_self _ _
      have h2 : (!(serializeRow r == s)) = false := by simp [hs]
      rw [removeDuplicateRowsAux_cons, if_pos h1, List.filter_cons, h2]
      simp only [Bool.false_eq_true, if_false]
      exact ih seen s
    · have h2 : (!(serializeRow r == s)) = true := by simp [hs]
      rw [removeDuplicateRowsAux_cons, List.filter_cons, h2]
      simp only [if_true]
      by_cases hm : serializeRow r ∈ seen
      · rw [if_pos (List.mem_cons_of_mem _ hm), removeDuplicateRowsAux_cons, if_pos hm]
        exact ih seen s
      · have hnot : serializeRow r ∉ s :: seen := by
          intro hx
          rcases List.mem_cons.mp hx with h | h
          · exact hs h
          · exact hm h
        rw [if_neg hnot, removeDuplicateRowsAux_cons, if_neg hm]
        apply congrArg (r :: ·)
        calc removeDuplicateRowsAux (serializeRow r :: s :: seen) rs
            = removeDuplicateRowsAux (s :: serializeRow r :: seen) rs := by
              apply removeDuplicateRowsAux_congr
              intro x
              simp [List.mem_cons]
              tauto
          _ = removeDuplicateRowsAux (serializeRow r :: seen)
                (rs.filter (fun r2 => !(serializeRow r2 == s))) := ih _ s

theorem removeDuplicateRows_cons (r : Row) (d : Grid) :
    removeDuplicateRows (r :: d)
      = r :: removeDuplicateRows
          (d.filter (fun r2 => !(serializeRow r2 == serializeRow r))) := by
  show removeDuplicateRowsAux [] (r :: d) = _
  rw [removeDuplicateRowsAux_cons, if_neg (by simp : serializeRow r ∉ ([] : List String))]
  exact congrArg (r :: ·) (removeDuplicateRowsAux_filter d [] (serializeRow r))

theorem removeDuplicateRowsAux_sublist : ∀ (l : Grid) (seen : List String),
    (removeDuplicateRowsAux seen l).Sublist l := by
  intro l
  induction l with
  | nil => intro seen; exact List.Sublist.refl _
  | cons r rs ih =>
    intro seen
    rw [removeDuplicateRowsAux_cons]
    by_cases hm : serializeRow r ∈ seen
    · rw [if_pos hm]
      exact (ih seen).cons r
    · rw [if_neg hm]
      exact (ih _).cons₂ r

theorem removeDuplicateRows_sublist (d : Grid) :
    (removeDuplicateRows d).Sublist d :=
  removeDuplicateRowsAux_sublist d []

theorem mem_removeDuplicateRowsAux_not_seen : ∀ (l : Grid) (seen : List String)
    (r : Row), r ∈ removeDuplicateRowsAux seen l → serializeRow r ∉ seen := by
  intro l
  induction l with
  | nil => intro seen r h; simp [removeDuplicateRowsAux] at h
  | cons r0 rs ih =>
    intro seen r h
    rw [removeDuplicateRowsAux_cons] at h
    by_cases hm : serializeRow r0 ∈ seen
    · rw [if_pos hm] at h
      exact ih seen r h
    · rw [if_neg hm] at h
      rcases List.mem_cons.mp h with h | h
      · rw [h]; exact hm
      · have := ih _ r h
        intro hx
        exact this (List.mem_cons_of_mem _ hx)

theorem pairwise_removeDuplicateRowsAux : ∀ (l : Grid) (seen : List String),
    List.Pairwise (fun a b => serializeRow a ≠ serializeRow b)
      (removeDuplicateRowsAux seen l) := by
  intro l
  induction l with
  | nil => intro seen; exact List.Pairwise.nil
  | cons r rs ih =>
    intro seen
    rw [removeDuplicateRowsAux_cons]
    by_cases hm : serializeRow r ∈ seen
    · rw [if_pos hm]
      exact ih seen
    · rw [if_neg hm]
      refine List.Pairwise.cons ?_ (ih _)
      intro b hb
      have := mem_removeDuplicateRowsAux_not_seen rs _ b hb
      intro hx
      exact this (by rw [← hx]; exact List.mem_cons_self _ _)

theorem pairwise_removeDuplicateRows (d : Grid) :
    List.Pairwise (fun a b => serializeRow a ≠ serializeRow b)
      (removeDuplicateRows d) :=
  pairwise_removeDuplicateRowsAux d []

theorem removeDuplicateRowsAux_id : ∀ (l : Grid) (seen : List String),
    List.Pairwise (fun a b => serializeRow a ≠ serializeRow b) l →
    (∀ r ∈ l, serializeRow r ∉ seen) →
    removeDuplicateRowsAux seen l = l := by
  intro l
  induction l with
  | nil => intro seen hp hs; rfl
  | cons r rs ih =>
    intro seen hp hs
    have hm : serializeRow r ∉ seen := hs r (List.mem_cons_self _ _)
    rw [removeDuplicateRowsAux_cons, if_neg hm]
    apply congrArg (r :: ·)
    apply ih
    · exact hp.of_cons
    · intro r2 h2
      intro hx
      rcases List.mem_cons.mp hx with h | h
      · exact (List.pairwise_cons.mp hp).1 r2 h2 h.symm
      · exact hs r2 (List.mem_cons_of_mem _ h2) h

theorem removeDuplicateRows_id (d : Grid)
    (h : List.Pairwise (fun a b => serializeRow a ≠ serializeRow b) d) :
    removeDuplicateRows d = d :=
  removeDuplicateRowsAux_id d [] h (by simp)

/-! ### Stage lemmas -/

theorem map_eq_self {α : Type} {f : α → α} :
    ∀ {l : List α}, (∀ x ∈ l, f x = x) → l.map f = l := by
  intro l
  induction l with
  | nil => intro h; rfl
  | cons x t ih =>
    intro h
    rw [List.map_cons, h x (List.mem_cons_self _ _), ih (fun y hy => h y (List.mem_cons_of_mem _ hy))]

theorem findIdxQ_some_bound {α : Type} (p : α → Bool) :
    ∀ (l : List α) (i j : Nat), l.findIdx? p i = some j → j < i + l.length := by
  intro l
  induction l with
  | nil => intro i j h; simp [List.findIdx?] at h
  | cons x t ih =>
    intro i j h
    rw [List.findIdx?_cons] at h
    split at h
    · cases h
      simp
    · have := ih (i + 1) j h
      simp only [List.length_cons]
      omega

theorem detectHeaderRow_lt (g : Grid) (h : g ≠ []) :
    detectHeaderRow g < g.length := by
  unfold detectHeaderRow
  cases hf : g.findIdx? (fun row => !isEmptyRow row) with
  | none =>
    simp only []
    cases g with
    | nil => exact absurd rfl h
    | cons r rs => simp
  | some i =>
    simp only []
    have := findIdxQ_some_bound _ g 0 i hf
    omega

theorem detectHeaderRow_cons_ne (r : Row) (rest : Grid)
    (h : isEmptyRow r = false) : detectHeaderRow (r :: rest) = 0 := by
  unfold detectHeaderRow
  rw [List.findIdx?_cons]
  rw [if_pos (by rw [h]; rfl)]

theorem isEmptyCell_replaceCell (c : Cell) :
    isEmptyCell (replaceCell c) = false := by
  cases c with
  | empty => decide
  | text s =>
    show isEmptyCell (if (trimStr s).length = 0 then
      Cell.text EMPTY_CELL_REPLACEMENT else Cell.text s) = false
    split
    · decide
    · next h =>
      show decide ((trimStr s).length = 0) = false
      simpa using h
  | num n => rfl
  | bool b => rfl

theorem replaceCell_of_empty {c : Cell} (h : isEmptyCell c = true) :
    replaceCell c = Cell.text EMPTY_CELL_REPLACEMENT := by
  cases c with
  | empty => rfl
  | text s =>
    have hs : (trimStr s).length = 0 := by simpa [isEmptyCell] using h
    show (if (trimStr s).length = 0 then _ else _) = _
    rw [if_pos hs]
  | num n => exact absurd h (by simp [isEmptyCell])
  | bool b => exact absurd h (by simp [isEmptyCell])

theorem replaceCell_of_not_empty {c : Cell} (h : isEmptyCell c = false) :
    replaceCell c = c := by
  cases c with
  | empty => exact absurd h (by simp [isEmptyCell])
  | text s =>
    have hs : ¬ (trimStr s).length = 0 := by simpa [isEmptyCell] using h
    show (if (trimStr s).length = 0 then _ else _) = _
    rw [if_neg hs]
  | num n => rfl
  | bool b => rfl

theorem isEmptyRow_map_replaceCell (row : Row) (h : isEmptyRow row = false) :
    isEmptyRow (row.map replaceCell) = false := by
  cases row with
  | nil => exact absurd h (by simp [isEmptyRow])
  | cons c cs =>
    show (isEmptyCell (replaceCell c) && (cs.map replaceCell).all isEmptyCell) = false
    rw [isEmptyCell_replaceCell]
    rfl

theorem mem_removeEmptyRows {row : Row} {g : Grid}
    (h : row ∈ removeEmptyRows g) : row ∈ g ∧ isEmptyRow row = false := by
  have := List.mem_filter.mp h
  exact ⟨this.1, by simpa using this.2⟩

/-- The pipeline equality behind `cleanData` on an accepted grid. -/
theorem cleanData_eq (d : Grid) (hd : d ≠ []) :
    cleanData (some d) = .ok {
      cleanedData := replaceEmptyCells (removeEmptyRows (removeDuplicateRows
        (normalizeCasing (trimAllWhitespace d)))),
      headerRowIndex := detectHeaderRow (replaceEmptyCells (removeEmptyRows
        (removeDuplicateRows (normalizeCasing (trimAllWhitespace d))))),
      originalRowCount := d.length,
      cleanedRowCount := (replaceEmptyCells (removeEmptyRows (removeDuplicateRows
        (normalizeCasing (trimAllWhitespace d))))).length } := by
  simp only [cleanData]
  rw [if_neg (by simpa [List.length_eq_zero] using hd)]

/-! ### Stability of cleaned cells -/

theorem toTitleCase_length (s : String) : (toTitleCase s).length = s.length := by
  by_cases h : s = ""
  · rw [h]
    rfl
  · show (toTitleCase s).data.length = s.data.length
    rw [toTitleCase_data s h, titleAux_length, List.length_map]

theorem str_ne_empty_pos {s : String} (h : s ≠ "") : 0 < s.length := by
  have hd : s.data ≠ [] := fun hx => h (String.ext (by rw [hx]))
  show 0 < s.data.length
  exact List.length_pos.mpr hd

theorem str_len_zero_empty {s : String} (h : ¬ 0 < s.length) : s = "" := by
  apply String.ext
  have h2 : s.data.length = 0 := by
    have h3 : ¬ 0 < s.data.length := h
    omega
  rw [List.length_eq_zero.mp h2]

theorem normTrim_stable (c0 : Cell) :
    trimWhitespace (normalizeCell (trimWhitespace c0))
      = normalizeCell (trimWhitespace c0) ∧
    normalizeCell (normalizeCell (trimWhitespace c0))
      = normalizeCell (trimWhitespace c0) := by
  cases c0 with
  | text s =>
    have htw : trimWhitespace (Cell.text s) = Cell.text (trimStr s) := rfl
    rw [htw]
    by_cases hlen : 0 < (trimStr s).length
    · have hnc : normalizeCell (Cell.text (trimStr s))
          = Cell.text (toTitleCase (trimStr s)) := by
        show (if 0 < (trimStr s).length then Cell.text (toTitleCase (trimStr s))
          else Cell.text (trimStr s)) = _
        rw [if_pos hlen]
      rw [hnc]
      constructor
      · show Cell.text (trimStr (toTitleCase (trimStr s)))
          = Cell.text (toTitleCase (trimStr s))
        rw [← toTitleCase_trimStr, trimStr_trimStr]
      · have hlen2 : 0 < (toTitleCase (trimStr s)).length := by
          rw [toTitleCase_length]
          exact hlen
        show (if 0 < (toTitleCase (trimStr s)).length then
            Cell.text (toTitleCase (toTitleCase (trimStr s)))
          else Cell.text (toTitleCase (trimStr s))) = _
        rw [if_pos hlen2, toTitleCase_toTitleCase]
    · have hnc : normalizeCell (Cell.text (trimStr s)) = Cell.text (trimStr s) := by
        show (if 0 < (trimStr s).length then Cell.text (toTitleCase (trimStr s))
          else Cell.text (trimStr s)) = _
        rw [if_neg hlen]
      rw [hnc]
      constructor
      · show Cell.text (trimStr (trimStr s)) = Cell.text (trimStr s)
        rw [trimStr_trimStr]
      · exact hnc
  | num n => exact ⟨rfl, rfl⟩
  | bool b => exact ⟨rfl, rfl⟩
  | empty => exact ⟨rfl, rfl⟩

theorem replaceCell_stable {c : Cell}
    (h : trimWhitespace c = c ∧ normalizeCell c = c) :
    trimWhitespace (replaceCell c) = replaceCell c ∧
    normalizeCell (replaceCell c) = replaceCell c := by
  by_cases he : isEmptyCell c = true
  · rw [replaceCell_of_empty he]
    exact ⟨by decide, by decide⟩
  · rw [replaceCell_of_not_empty (by simpa using he)]
    exact h

theorem cleaned_cells_shape (d : Grid) :
    ∀ row ∈ removeEmptyRows (removeDuplicateRows (normalizeCasing
        (trimAllWhitespace d))),
      ∀ c ∈ row, ∃ c0, c = normalizeCell (trimWhitespace c0) := by
  intro row hrow c hc
  have h1 : row ∈ removeDuplicateRows (normalizeCasing (trimAllWhitespace d)) :=
    (mem_removeEmptyRows hrow).1
  have h2 : row ∈ normalizeCasing (trimAllWhitespace d) :=
    (removeDuplicateRows_sublist _).subset h1
  rcases List.mem_map.mp h2 with ⟨row1, hrow1, hrow1eq⟩
  rcases List.mem_map.mp hrow1 with ⟨row0, _, hrow0eq⟩
  rw [← hrow1eq] at hc
  rcases List.mem_map.mp hc with ⟨c1, hc1, hc1eq⟩
  rw [← hrow0eq] at hc1
  rcases List.mem_map.mp hc1 with ⟨c0, _, hc0eq⟩
  exact ⟨c0, by rw [← hc1eq, ← hc0eq]⟩

theorem cleanedData_cells_good (d : Grid) :
    ∀ row ∈ replaceEmptyCells (removeEmptyRows (removeDuplicateRows
        (normalizeCasing (trimAllWhitespace d)))),
      ∀ c ∈ row, trimWhitespace c = c ∧ normalizeCell c = c ∧
        isEmptyCell c = false := by
  intro row hrow c hc
  rcases List.mem_map.mp hrow with ⟨row4, hrow4, hroweq⟩
  rw [← hroweq] at hc
  rcases List.mem_map.mp hc with ⟨c4, hc4, hceq⟩
  obtain ⟨c0, hc0⟩ := cleaned_cells_shape d row4 hrow4 c4 hc4
  have hst : trimWhitespace c4 = c4 ∧ normalizeCell c4 = c4 := by
    rw [hc0]
    exact normTrim_stable c0
  have hrep := replaceCell_stable hst
  rw [← hceq]
  exact ⟨hrep.1, hrep.2, isEmptyCell_replaceCell c4⟩

theorem cleanedData_rows_nonempty (d : Grid) :
    ∀ row ∈ replaceEmptyCells (removeEmptyRows (removeDuplicateRows
        (normalizeCasing (trimAllWhitespace d)))), isEmptyRow row = false := by
  intro row hrow
  rcases List.mem_map.mp hrow with ⟨row4, hrow4, hroweq⟩
  rw [← hroweq]
  exact isEmptyRow_map_replaceCell row4 (mem_removeEmptyRows hrow4).2

/-! ### Positional characterization of the title-case pass -/

theorem prevWordAt_cons (b : Bool) (c : Char) (t : List Char) :
    ∀ j, prevWordAt (wordChar c) t j = prevWordAt b (c :: t) (j + 1) := by
  intro j
  cases j with
  | zero => simp [prevWordAt]
  | succ k => simp [prevWordAt]

theorem titleAux_getElem? : ∀ (l : List Char) (b : Bool) (i : Nat),
    (titleAux b l)[i]?
      = (l[i]?).map (fun c =>
          if wordChar c && !(prevWordAt b l i) then jsToUpper c else c) := by
  intro l
  induction l with
  | nil => intro b i; simp [titleAux]
  | cons c t ih =>
    intro b i
    cases i with
    | zero => simp [titleAux, prevWordAt]
    | succ j =>
      have h1 : titleAux b (c :: t)
          = (if wordChar c && !b then jsToUpper c else c) :: titleAux (wordChar c) t := rfl
      rw [h1]
      simp only [List.getElem?_cons_succ]
      rw [ih (wordChar c) j, prevWordAt_cons b c t j]

/-! ### Claim theorems -/

/-- C1: `cleanData` raises exactly on a missing grid (null/undefined) or a
grid with zero rows, producing no CleaningResult there; every non-null
grid with at least one row is cleaned successfully, whatever cell kinds it
contains (all pipeline stages are total functions). -/
theorem claim_C1_error_iff :
    (∀ og : Option Grid,
      (∃ e, cleanData og = .error e) ↔ (og = none ∨ og = some [])) ∧
    (∀ d : Grid, d ≠ [] → ∃ res, cleanData (some d) = .ok res) := by
  constructor
  · intro og
    constructor
    · rintro ⟨e, he⟩
      match og with
      | none => exact Or.inl rfl
      | some d =>
        by_cases h : d.length = 0
        · exact Or.inr (by rw [List.length_eq_zero.mp h])
        · exfalso
          rw [cleanData_eq d (by simpa [← List.length_eq_zero] using h)] at he
          cases he
    · rintro (h | h) <;> rw [h] <;> exact ⟨"No data provided to clean.", rfl⟩
  · intro d hd
    exact ⟨_, cleanData_eq d hd⟩

theorem claim_C1_witness :
    some ([] : Grid) = none ∨ some ([] : Grid) = some [] :=
  (claim_C1_error_iff.1 (some [])).mp ⟨"No data provided to clean.", rfl⟩

/-- C2: on every accepted grid, `cleanData` records the original row count
and then applies trim, casing, duplicate removal, empty-row removal and
placeholder replacement in exactly that order, computing the header index
and the cleaned row count on the final grid.  The concrete conjunct is the
spec's Scenario A, showing that trimming and casing happen before
duplicate detection (`"  alice  "` and `"Alice"` collapse). -/
theorem claim_C2_pipeline_order :
    (∀ d : Grid, d ≠ [] →
      cleanData (some d) = .ok {
        cleanedData := replaceEmptyCells (removeEmptyRows (removeDuplicateRows
          (normalizeCasing (trimAllWhitespace d)))),
        headerRowIndex := detectHeaderRow (replaceEmptyCells (removeEmptyRows
          (removeDuplicateRows (normalizeCasing (trimAllWhitespace d))))),
        originalRowCount := d.length,
        cleanedRowCount := (replaceEmptyCells (removeEmptyRows
          (removeDuplicateRows (normalizeCasing (trimAllWhitespace d))))).length }) ∧
    cleanData (some [[Cell.text "  alice  ", Cell.text "30"],
                     [Cell.text "Alice", Cell.text "30"],
                     [Cell.text "", Cell.text ""]]) =
      .ok { cleanedData := [[Cell.text "Alice", Cell.text "30"]],
            headerRowIndex := 0, originalRowCount := 3, cleanedRowCount := 1 } :=
  ⟨fun d hd => cleanData_eq d hd, by decide⟩

theorem claim_C2_witness :
    cleanData (some [[Cell.empty]]) = .ok {
      cleanedData := replaceEmptyCells (removeEmptyRows (removeDuplicateRows
        (normalizeCasing (trimAllWhitespace [[Cell.empty]])))),
      headerRowIndex := detectHeaderRow (replaceEmptyCells (removeEmptyRows
        (removeDuplicateRows (normalizeCasing (trimAllWhitespace [[Cell.empty]]))))),
      originalRowCount := [[Cell.empty]].length,
      cleanedRowCount := (replaceEmptyCells (removeEmptyRows
        (removeDuplicateRows (normalizeCasing
          (trimAllWhitespace [[Cell.empty]]))))).length } :=
  claim_C2_pipeline_order.1 [[Cell.empty]] (by decide)

/-- C3: on every accepted grid the result satisfies
`cleanedRowCount = cleanedData.length`,
`cleanedRowCount ≤ originalRowCount`, and
`headerRowIndex < cleanedRowCount` whenever `cleanedRowCount > 0`. -/
theorem claim_C3_result_invariants :
    ∀ (d : Grid), d ≠ [] → ∀ res, cleanData (some d) = .ok res →
      res.cleanedRowCount = res.cleanedData.length ∧
      res.cleanedRowCount ≤ res.originalRowCount ∧
      (0 < res.cleanedRowCount → res.headerRowIndex < res.cleanedRowCount) := by
  intro d hd res hres
  rw [cleanData_eq d hd] at hres
  obtain rfl := Except.ok.inj hres
  refine ⟨rfl, ?_, ?_⟩
  · show (replaceEmptyCells (removeEmptyRows (removeDuplicateRows
      (normalizeCasing (trimAllWhitespace d))))).length ≤ d.length
    have e5 : (replaceEmptyCells (removeEmptyRows (removeDuplicateRows
        (normalizeCasing (trimAllWhitespace d))))).length
        = (removeEmptyRows (removeDuplicateRows
            (normalizeCasing (trimAllWhitespace d)))).length := by
      simp [replaceEmptyCells]
    have e4 : (removeEmptyRows (removeDuplicateRows
        (normalizeCasing (trimAllWhitespace d)))).length
        ≤ (removeDuplicateRows (normalizeCasing (trimAllWhitespace d))).length :=
      List.length_filter_le _ _
    have e3 : (removeDuplicateRows (normalizeCasing (trimAllWhitespace d))).length
        ≤ (normalizeCasing (trimAllWhitespace d)).length :=
      (removeDuplicateRows_sublist _).length_le
    have e2 : (normalizeCasing (trimAllWhitespace d)).length = d.length := by
      simp [normalizeCasing, trimAllWhitespace]
    omega
  · intro hpos
    show detectHeaderRow (replaceEmptyCells (removeEmptyRows (removeDuplicateRows
      (normalizeCasing (trimAllWhitespace d)))))
      < (replaceEmptyCells (removeEmptyRows (removeDuplicateRows
          (normalizeCasing (trimAllWhitespace d))))).length
    apply detectHeaderRow_lt
    intro hnil
    have hp2 : 0 < (replaceEmptyCells (removeEmptyRows (removeDuplicateRows
        (normalizeCasing (trimAllWhitespace d))))).length := hpos
    rw [hnil] at hp2
    simp at hp2

theorem claim_C3_witness :
    (replaceEmptyCells (removeEmptyRows (removeDuplicateRows (normalizeCasing
      (trimAllWhitespace [[Cell.bool true]]))))).length
      ≤ [[Cell.bool true]].length :=
  (claim_C3_result_invariants [[Cell.bool true]] (by decide) _
    (cleanData_eq [[Cell.bool true]] (by decide))).2.1

/-- C4: after cleaning, no cell of the returned grid is an Empty marker or
whitespace-only text; the cleaned grid is the pre-replacement grid with
`replaceCell` applied to each cell, and `replaceCell` sends every empty
cell to exactly the placeholder `"N/A"` and leaves every non-empty cell
unchanged. -/
theorem claim_C4_no_empty :
    EMPTY_CELL_REPLACEMENT = "N/A" ∧
    (∀ (d : Grid), d ≠ [] → ∀ res, cleanData (some d) = .ok res →
      (∀ row ∈ res.cleanedData, ∀ c ∈ row, isEmptyCell c = false) ∧
      res.cleanedData = (stage4 d).map (fun row => row.map replaceCell)) ∧
    (∀ c : Cell, (isEmptyCell c = true → replaceCell c = Cell.text "N/A") ∧
      (isEmptyCell c = false → replaceCell c = c)) := by
  refine ⟨rfl, ?_, fun c =>
    ⟨fun h => replaceCell_of_empty h, fun h => replaceCell_of_not_empty h⟩⟩
  intro d hd res hres
  rw [cleanData_eq d hd] at hres
  obtain rfl := Except.ok.inj hres
  refine ⟨?_, rfl⟩
  intro row hrow c hc
  exact (cleanedData_cells_good d row hrow c hc).2.2

theorem claim_C4_witness : isEmptyCell (Cell.text "N/A") = false := by
  have h := claim_C4_no_empty.2.1 [[Cell.empty, Cell.num 3]] (by decide) _
    (cleanData_eq [[Cell.empty, Cell.num 3]] (by decide))
  exact h.1 [Cell.text "N/A", Cell.num 3] (by decide) (Cell.text "N/A") (by decide)

/-- C5: `removeDuplicateRows` keeps the first occurrence of each distinct
row and drops every later one (expressed by the base case, the recurrence
that deletes all later serialization-equal occurrences of the head, and
the sublist fact giving order preservation); two rows are
serialization-equal iff they have the same length and pointwise
serialization-equal cells; this equality is reflexive, symmetric and
transitive; an Empty cell is not serialization-equal to an empty-string
Text cell, and Text "5" is not serialization-equal to Number 5. -/
theorem claim_C5_duplicate_semantics :
    (∀ d : Grid, (removeDuplicateRows d).Sublist d) ∧
    removeDuplicateRows ([] : Grid) = [] ∧
    (∀ (r : Row) (d : Grid), removeDuplicateRows (r :: d)
        = r :: removeDuplicateRows
            (d.filter (fun r2 => !(serializeRow r2 == serializeRow r)))) ∧
    (∀ r1 r2 : Row, serializeRow r1 = serializeRow r2 ↔
        (r1.length = r2.length ∧
         ∀ (i : Nat) (h1 : i < r1.length) (h2 : i < r2.length),
           serializeCell (r1.get ⟨i, h1⟩) = serializeCell (r2.get ⟨i, h2⟩))) ∧
    (∀ r : Row, serializeRow r = serializeRow r) ∧
    (∀ r1 r2 : Row, serializeRow r1 = serializeRow r2 →
        serializeRow r2 = serializeRow r1) ∧
    (∀ r1 r2 r3 : Row, serializeRow r1 = serializeRow r2 →
        serializeRow r2 = serializeRow r3 → serializeRow r1 = serializeRow r3) ∧
    serializeCell Cell.empty ≠ serializeCell (Cell.text "") ∧
    serializeCell (Cell.text "5") ≠ serializeCell (Cell.num 5) := by
  refine ⟨removeDuplicateRows_sublist, rfl, removeDuplicateRows_cons, ?_,
    fun r => rfl, fun r1 r2 h => h.symm, fun r1 r2 r3 h1 h2 => h1.trans h2,
    by decide, by decide⟩
  intro r1 r2
  constructor
  · intro h
    obtain rfl := serializeRow_inj h
    exact ⟨rfl, fun i h1 h2 => rfl⟩
  · rintro ⟨hlen, hpt⟩
    have : r1 = r2 :=
      List.ext_get hlen (fun i h1 h2 => serializeCell_inj (hpt i h1 h2))
    rw [this]

theorem claim_C5_witness :
    serializeRow [Cell.num 1] = serializeRow [Cell.num 1] ∧
    removeDuplicateRows [[Cell.num 1], [Cell.num 1]] = [[Cell.num 1]] := by
  constructor
  · exact claim_C5_duplicate_semantics.2.2.2.2.2.1 [Cell.num 1] [Cell.num 1] rfl
  · rw [claim_C5_duplicate_semantics.2.2.1 [Cell.num 1] [[Cell.num 1]]]
    decide

/-- C6: in the cleaned grid, rows at distinct indices have distinct
canonical serializations before placeholder replacement (the cleaned grid
is exactly the per-cell replacement image of that grid), and the only way
two distinct indices can carry serialization-equal rows after replacement
is that the rows were distinct before replacement and became identical
through it — replacement runs after duplicate removal and nothing
re-deduplicates. -/
theorem claim_C6_no_duplicate_invariant :
    ∀ (d : Grid), d ≠ [] → ∀ res, cleanData (some d) = .ok res →
      (∀ (i j : Nat) (hi : i < (stage4 d).length) (hj : j < (stage4 d).length),
        i ≠ j → serializeRow ((stage4 d).get ⟨i, hi⟩)
          ≠ serializeRow ((stage4 d).get ⟨j, hj⟩)) ∧
      res.cleanedData = (stage4 d).map (fun row => row.map replaceCell) ∧
      (∀ (i j : Nat) (hi : i < (stage4 d).length) (hj : j < (stage4 d).length),
        i ≠ j →
        serializeRow (((stage4 d).get ⟨i, hi⟩).map replaceCell)
          = serializeRow (((stage4 d).get ⟨j, hj⟩).map replaceCell) →
        (stage4 d).get ⟨i, hi⟩ ≠ (stage4 d).get ⟨j, hj⟩ ∧
        ((stage4 d).get ⟨i, hi⟩).map replaceCell
          = ((stage4 d).get ⟨j, hj⟩).map replaceCell) := by
  intro d hd res hres
  rw [cleanData_eq d hd] at hres
  obtain rfl := Except.ok.inj hres
  have hpw : List.Pairwise (fun a b => serializeRow a ≠ serializeRow b) (stage4 d) :=
    List.Pairwise.sublist (List.filter_sublist _) (pairwise_removeDuplicateRows _)
  have hget := List.pairwise_iff_get.mp hpw
  have hne : ∀ (i j : Nat) (hi : i < (stage4 d).length) (hj : j < (stage4 d).length),
      i ≠ j → serializeRow ((stage4 d).get ⟨i, hi⟩)
        ≠ serializeRow ((stage4 d).get ⟨j, hj⟩) := by
    intro i j hi hj hij
    rcases Nat.lt_or_ge i j with h | h
    · exact hget ⟨i, hi⟩ ⟨j, hj⟩ (Fin.mk_lt_mk.mpr h)
    · exact (hget ⟨j, hj⟩ ⟨i, hi⟩ (Fin.mk_lt_mk.mpr (by omega))).symm
  refine ⟨hne, rfl, ?_⟩
  intro i j hi hj hij hser
  refine ⟨?_, serializeRow_inj hser⟩
  intro heq
  exact hne i j hi hj hij (by rw [heq])

theorem claim_C6_witness :
    ∃ h0 : 0 < (stage4 [[Cell.empty, Cell.text "x"],
                        [Cell.text "", Cell.text "x"]]).length,
    ∃ h1 : 1 < (stage4 [[Cell.empty, Cell.text "x"],
                        [Cell.text "", Cell.text "x"]]).length,
      (stage4 [[Cell.empty, Cell.text "x"], [Cell.text "", Cell.text "x"]]).get
          ⟨0, h0⟩
        ≠ (stage4 [[Cell.empty, Cell.text "x"],
            [Cell.text "", Cell.text "x"]]).get ⟨1, h1⟩ ∧
      ((stage4 [[Cell.empty, Cell.text "x"],
          [Cell.text "", Cell.text "x"]]).get ⟨0, h0⟩).map replaceCell
        = ((stage4 [[Cell.empty, Cell.text "x"],
            [Cell.text "", Cell.text "x"]]).get ⟨1, h1⟩).map replaceCell := by
  refine ⟨by decide, by decide, ?_⟩
  exact (claim_C6_no_duplicate_invariant
    [[Cell.empty, Cell.text "x"], [Cell.text "", Cell.text "x"]] (by decide) _
    (cleanData_eq _ (by decide))).2.2 0 1 (by decide) (by decide)
    (by decide) (by decide)

/-- C7 counterexample: the grid `[[Empty]]` cleans to the empty grid — an
output with no whitespace-only and no duplicate-inducing content — yet
running `clean` on that output raises the input error, so
`clean(clean(g).cleanedGrid)` has no value and the claimed equation fails
at `g = [[Empty]]`. -/
theorem claim_C7_counterexample :
    cleanData (some [[Cell.empty]]) = .ok { cleanedData := [],
                                            headerRowIndex := 0,
                                            originalRowCount := 1,
                                            cleanedRowCount := 0 } ∧
    cleanData (some ([] : Grid)) = .error "No data provided to clean." := by
  decide

/-- C7 (amended): for every grid whose single-pass output is non-empty and
free of duplicate-inducing content (pairwise distinct row serializations —
whitespace-only content is already impossible in a cleaned grid), a second
pass accepts the cleaned grid and returns it unchanged. -/
theorem claim_C7_idempotent :
    ∀ (g : Grid) (res1 : CleaningResult),
      cleanData (some g) = .ok res1 →
      res1.cleanedData ≠ [] →
      List.Pairwise (fun a b => serializeRow a ≠ serializeRow b)
        res1.cleanedData →
      ∃ res2, cleanData (some res1.cleanedData) = .ok res2 ∧
        res2.cleanedData = res1.cleanedData := by
  intro g res1 hres hne hpw
  have hg : g ≠ [] := by
    intro h
    rw [h] at hres
    simp [cleanData] at hres
  rw [cleanData_eq g hg] at hres
  have hcd : res1.cleanedData = replaceEmptyCells (removeEmptyRows
      (removeDuplicateRows (normalizeCasing (trimAllWhitespace g)))) := by
    rw [← Except.ok.inj hres]
  obtain ⟨C, hC⟩ : ∃ C, replaceEmptyCells (removeEmptyRows
      (removeDuplicateRows (normalizeCasing (trimAllWhitespace g)))) = C :=
    ⟨_, rfl⟩
  rw [hC] at hcd
  rw [hcd] at hne hpw ⊢
  have hcells : ∀ row ∈ C, ∀ c ∈ row, trimWhitespace c = c ∧
      normalizeCell c = c ∧ isEmptyCell c = false := by
    rw [← hC]
    exact cleanedData_cells_good g
  have hrows : ∀ row ∈ C, isEmptyRow row = false := by
    rw [← hC]
    exact cleanedData_rows_nonempty g
  have h1 : trimAllWhitespace C = C := by
    apply map_eq_self
    intro row hrow
    apply map_eq_self
    intro c hc
    exact (hcells row hrow c hc).1
  have h2 : normalizeCasing C = C := by
    apply map_eq_self
    intro row hrow
    apply map_eq_self
    intro c hc
    exact (hcells row hrow c hc).2.1
  have h3 : removeDuplicateRows C = C := removeDuplicateRows_id C hpw
  have h4 : removeEmptyRows C = C := by
    apply List.filter_eq_self.mpr
    intro row hrow
    rw [hrows row hrow]
    rfl
  have h5 : replaceEmptyCells C = C := by
    apply map_eq_self
    intro row hrow
    apply map_eq_self
    intro c hc
    exact replaceCell_of_not_empty (hcells row hrow c hc).2.2
  refine ⟨_, cleanData_eq C hne, ?_⟩
  show replaceEmptyCells (removeEmptyRows (removeDuplicateRows
    (normalizeCasing (trimAllWhitespace C)))) = C
  rw [h1, h2, h3, h4, h5]

theorem claim_C7_witness :
    ∃ res2, cleanData (some [[Cell.text "B"], [Cell.text "A"]]) = .ok res2 ∧
      res2.cleanedData = [[Cell.text "B"], [Cell.text "A"]] := by
  have h := claim_C7_idempotent [[Cell.text "b"], [Cell.text "a"]]
    { cleanedData := [[Cell.text "B"], [Cell.text "A"]], headerRowIndex := 0,
      originalRowCount := 2, cleanedRowCount := 2 } (by decide) (by decide)
    (by decide)
  simpa using h

/-- C8 counterexample: case-normalizing the trimmed text `" a"` yields
`"A"`, while case-normalizing `" a"` itself yields `" A"` — the two differ,
so `normalizeCasing(trim(x)) = normalizeCasing(x)` fails at `x = " a"`. -/
theorem claim_C8_counterexample :
    normalizeCell (trimWhitespace (Cell.text " a"))
      ≠ normalizeCell (Cell.text " a") := by
  decide

/-- C8 (amended): case normalization commutes with trimming —
`normalizeCasing(trim(x)) = trim(normalizeCasing(x))`, both at the string
level (`toTitleCase`) and at the cell level. -/
theorem claim_C8_trim_commute :
    (∀ s : String, toTitleCase (trimStr s) = trimStr (toTitleCase s)) ∧
    (∀ c : Cell, normalizeCell (trimWhitespace c)
        = trimWhitespace (normalizeCell c)) := by
  refine ⟨toTitleCase_trimStr, ?_⟩
  intro c
  cases c with
  | text s =>
    show normalizeCell (Cell.text (trimStr s))
      = trimWhitespace (normalizeCell (Cell.text s))
    by_cases h0 : 0 < s.length
    · have hn : normalizeCell (Cell.text s) = Cell.text (toTitleCase s) := by
        show (if 0 < s.length then Cell.text (toTitleCase s)
          else Cell.text s) = _
        rw [if_pos h0]
      rw [hn]
      show normalizeCell (Cell.text (trimStr s))
        = Cell.text (trimStr (toTitleCase s))
      rw [← toTitleCase_trimStr]
      by_cases h1 : 0 < (trimStr s).length
      · show (if 0 < (trimStr s).length then Cell.text (toTitleCase (trimStr s))
          else Cell.text (trimStr s)) = _
        rw [if_pos h1]
      · have he : trimStr s = "" := str_len_zero_empty h1
        rw [he]
        rfl
    · have hs : s = "" := str_len_zero_empty h0
      rw [hs]
      rfl
  | num n => rfl
  | bool b => rfl
  | empty => rfl

/-- C9 counterexample: on the text `"3m"` the word run starts at the digit
`3`, which the code upper-cases (a no-op); the first letter-class
character `m` is not at a word start, so nothing is capitalized — the code
does not upper-case the first letter-class character of the run as the
claim states, which would give `"3M"`. -/
theorem claim_C9_counterexample :
    normalizeCell (Cell.text "3m") = Cell.text "3m" ∧
    Cell.text "3m" ≠ Cell.text "3M" := by
  decide

/-- C9 (amended): the casing normalizer maps every non-empty Text cell to
`toTitleCase`: lower-case the whole string, then upper-case the character
at every position where a word character (`[A-Za-z0-9_]`, upper-casing
being a no-op on digits and underscore) is not preceded by a word
character; empty Text cells and non-Text cells pass through unchanged, and
the output grid has the same shape as the input. -/
theorem claim_C9_casing_char :
    (∀ s : String, s ≠ "" →
      (toTitleCase s).data.length = s.data.length ∧
      ∀ i : Nat, (toTitleCase s).data[i]?
        = ((s.data.map jsToLower)[i]?).map (fun c =>
            if wordChar c && !(prevWordAt false (s.data.map jsToLower) i)
            then jsToUpper c else c)) ∧
    (∀ s : String, s ≠ "" →
      normalizeCell (Cell.text s) = Cell.text (toTitleCase s)) ∧
    normalizeCell (Cell.text "") = Cell.text "" ∧
    (∀ n : Int, normalizeCell (Cell.num n) = Cell.num n) ∧
    (∀ b : Bool, normalizeCell (Cell.bool b) = Cell.bool b) ∧
    normalizeCell Cell.empty = Cell.empty ∧
    (∀ g : Grid, (normalizeCasing g).length = g.length ∧
      ∀ i : Nat, ((normalizeCasing g)[i]?).map List.length
        = (g[i]?).map List.length) := by
  refine ⟨?_, ?_, rfl, fun n => rfl, fun b => rfl, rfl, ?_⟩
  · intro s hs
    constructor
    · rw [toTitleCase_data s hs, titleAux_length, List.length_map]
    · intro i
      rw [toTitleCase_data s hs, titleAux_getElem?]
  · intro s hs
    show (if 0 < s.length then Cell.text (toTitleCase s) else Cell.text s) = _
    rw [if_pos (str_ne_empty_pos hs)]
  · intro g
    constructor
    · simp [normalizeCasing]
    · intro i
      show ((g.map (fun row => row.map normalizeCell))[i]?).map List.length
        = (g[i]?).map List.length
      rw [List.getElem?_map]
      cases g[i]? with
      | none => rfl
      | some row => simp

theorem claim_C9_witness :
    normalizeCell (Cell.text "ab") = Cell.text (toTitleCase "ab") :=
  claim_C9_casing_char.2.1 "ab" (by decide)

/-- C10: for every accepted input grid the returned headerRowIndex is 0 —
header detection runs after empty-row removal and placeholder replacement,
so the first remaining row (when any) is non-empty, and the
defensive default for an empty grid is also 0. -/
theorem claim_C10_header_zero :
    ∀ (d : Grid), d ≠ [] → ∀ res, cleanData (some d) = .ok res →
      res.headerRowIndex = 0 := by
  intro d hd res hres
  rw [cleanData_eq d hd] at hres
  obtain rfl := Except.ok.inj hres
  show detectHeaderRow (replaceEmptyCells (removeEmptyRows (removeDuplicateRows
    (normalizeCasing (trimAllWhitespace d))))) = 0
  cases hG : removeEmptyRows (removeDuplicateRows (normalizeCasing
      (trimAllWhitespace d))) with
  | nil => rfl
  | cons r rest =>
    have hr : isEmptyRow r = false :=
      (mem_removeEmptyRows (by rw [hG]; exact List.mem_cons_self _ _)).2
    show detectHeaderRow (r.map replaceCell
      :: rest.map (fun row => row.map replaceCell)) = 0
    exact detectHeaderRow_cons_ne _ _ (isEmptyRow_map_replaceCell r hr)

theorem claim_C10_witness :
    ({ cleanedData := [[Cell.text "H"]], headerRowIndex := 0,
       originalRowCount := 1, cleanedRowCount := 1 } : CleaningResult).headerRowIndex
      = 0 :=
  claim_C10_header_zero [[Cell.text "h"]] (by decide)
    { cleanedData := [[Cell.text "H"]], headerRowIndex := 0,
      originalRowCount := 1, cleanedRowCount := 1 } (by decide)

end DataCleaner
